import Mathlib

/-!
Verification of the taxi timesheet core (parser, line types, synchronized
collection, entry model) against its natural-language specification.

The Python source (src/taxi/timesheet/parser.py, src/taxi/timesheet/entry.py)
is embedded shallowly: machine text is `String`/`List Char`, Python `float`
durations are `ℚ`, `datetime.time` is a pair of bounded fields, fallible code
returns `Except String` (the ParseError message).  Python's `re.match` calls
use two fixed patterns; both are embedded as specialized backtracking matchers
that enumerate candidate parses in exactly the order Python's engine explores
them (greedy quantifiers longest-first, optional groups present-first,
alternations left-first), taking the first full success.
-/

set_option maxRecDepth 100000

deriving instance DecidableEq for Except

namespace Taxi

/-- Python whitespace characters recognised by `str.strip()` / `str.split()`
(ASCII subset; the timesheet text is ASCII-oriented). -/
def isPyWs (c : Char) : Bool :=
  c = ' ' || c = '\t' || c = '\n' || c = '\x0d' || c = '\x0b' || c = '\x0c'

/-- Models `str.strip()` on a character list. -/
def stripList (cs : List Char) : List Char :=
  ((cs.dropWhile isPyWs).reverse.dropWhile isPyWs).reverse

/-- Models `str.strip()`. -/
def stripStr (s : String) : String :=
  String.mk (stripList s.data)

/-- Numeric value of a digit group, as Python `int()` on a digit string. -/
def toNatD (g : List Char) : Nat :=
  g.foldl (fun a c => a * 10 + (c.toNat - 48)) 0

/-- Models `datetime.time` restricted to hour/minute: the constructor enforces
hour < 24 and minute < 60, so validity is baked into the type. -/
structure Time where
  hour : Fin 24
  minute : Fin 60
deriving DecidableEq

/-- Models `datetime.time(hour, minute)`: CPython validates the hour first, then the
minute, raising ValueError with these exact messages. -/
def mkTime (h m : Nat) : Except String Time :=
  if hh : h < 24 then
    if mm : m < 60 then .ok ⟨⟨h, hh⟩, ⟨m, mm⟩⟩
    else .error "minute must be in 0..59"
  else .error "hour must be in 0..23"

/-- A parsed duration: either a plain number of hours (Python float, embedded
as `ℚ`) or a `(start, end)` time-of-day pair where either side may be `None`.
The second range field is named `stop` because `end` is a Lean keyword. -/
inductive Duration where
  | hours (value : ℚ)
  | range (start stop : Option Time)
deriving DecidableEq

/-- A calendar date as produced by `datetime.date`. -/
structure Date where
  year : Nat
  month : Nat
  day : Nat
deriving DecidableEq

/-- Gregorian leap-year rule used by `datetime.date`. -/
def isLeapYear (y : Nat) : Bool :=
  y % 4 = 0 && (y % 100 ≠ 0 || y % 400 = 0)

/-- Days in a month, as validated by `datetime.date`. -/
def daysInMonth (y m : Nat) : Nat :=
  if m = 2 then (if isLeapYear y then 29 else 28)
  else if m = 4 || m = 6 || m = 9 || m = 11 then 30
  else 31

/-- Models `datetime.date(year, month, day)`: validates year, then month, then day. -/
def mkDate (y m d : Nat) : Except String Date :=
  if y < 1 || y > 9999 then .error "year is out of range"
  else if m < 1 || m > 12 then .error "month must be in 1..12"
  else if d < 1 || d > daysInMonth y m then .error "day is out of range for month"
  else .ok ⟨y, m, d⟩

/-! ## The duration regex

`re.match(r'(?:(\d{1,2}):?(\d{1,2}))?-(?:(?:(\d{1,2}):?(\d{1,2}))|\?)', s)`
is a prefix match (trailing characters allowed).  The candidate lists below
enumerate the engine's backtracking alternatives in exploration order. -/

/-- Candidates for `\d{1,2}` (value and remaining input), longest first. -/
def digits12 (cs : List Char) : List (Nat × List Char) :=
  match cs with
  | c1 :: c2 :: r =>
    if c1.isDigit then
      if c2.isDigit then
        [((c1.toNat - 48) * 10 + (c2.toNat - 48), r), (c1.toNat - 48, c2 :: r)]
      else [(c1.toNat - 48, c2 :: r)]
    else []
  | [c1] => if c1.isDigit then [(c1.toNat - 48, [])] else []
  | [] => []

/-- Candidates for `:?` (remaining input), colon-consumed first. -/
def colonCands (cs : List Char) : List (List Char) :=
  match cs with
  | ':' :: r => [r, ':' :: r]
  | _ => [cs]

/-- Candidates for `(\d{1,2}):?(\d{1,2})` — an hour/minute group pair. -/
def hmCands (cs : List Char) : List ((Nat × Nat) × List Char) :=
  (digits12 cs).flatMap fun p =>
    (colonCands p.2).flatMap fun r2 =>
      (digits12 r2).map fun q => ((p.1, q.1), q.2)

/-- First `some` of a list of options (first successful backtracking branch). -/
def firstSome : List (Option α) → Option α
  | [] => none
  | some x :: _ => some x
  | none :: r => firstSome r

/-- Candidates for the end alternation `(?:(\d{1,2}):?(\d{1,2}))|\?`:
digit-group parses first, then the literal `?`.  `none` groups mean the `?`
branch was taken (regex groups 3/4 are both None). -/
def endCands (cs : List Char) : List (Option (Nat × Nat) × List Char) :=
  ((hmCands cs).map fun p => (some p.1, p.2)) ++
    (match cs with
     | '?' :: r => [((none : Option (Nat × Nat)), r)]
     | _ => [])

/-- Candidates for the optional start group `(?:(\d{1,2}):?(\d{1,2}))?`:
group-present parses first, then group-absent (groups 1/2 None). -/
def startCands (cs : List Char) : List (Option (Nat × Nat) × List Char) :=
  ((hmCands cs).map fun p => (some p.1, p.2)) ++ [((none : Option (Nat × Nat)), cs)]

/-- The whole duration regex: for each start candidate, require a literal `-`,
then take the first end candidate; overall the first full success wins.
Returns the (start groups, end groups) of the match, or `none` if no match. -/
def rangeMatch (cs : List Char) : Option (Option (Nat × Nat) × Option (Nat × Nat)) :=
  firstSome ((startCands cs).map fun p =>
    match p.2 with
    | '-' :: r2 => ((endCands r2).head?).map fun q => (p.1, q.1)
    | _ => none)

/-- Python `float()` on the simple decimal literals this grammar can meet:
optional sign, then digits with at most one decimal point (at least one digit
overall).  Exponents, `inf`/`nan`, underscores and surrounding whitespace are
not modelled; no timesheet token (whitespace-free by construction) that the
claims exercise uses them. -/
def pyFloat (s : String) : Option ℚ :=
  let p : ℚ × List Char :=
    match s.data with
    | '-' :: r => (-1, r)
    | '+' :: r => (1, r)
    | cs => (1, cs)
  let ip := p.2.takeWhile Char.isDigit
  let rest := p.2.dropWhile Char.isDigit
  match rest with
  | [] => if ip.isEmpty then none else some (p.1 * toNatD ip)
  | '.' :: fr =>
    if fr.all Char.isDigit && (!ip.isEmpty || !fr.isEmpty) then
      some (p.1 * ((toNatD ip : ℚ) + (toNatD fr : ℚ) / (10 ^ fr.length)))
    else none
  | _ => none

/-- Models `TimesheetParser.parse_time`: try the time-range regex; on a match build
the `(start, end)` pair (range errors from `datetime.time` become ParseError
with the ValueError's message); otherwise fall back to `float()`. -/
def parseTime (s : String) : Except String Duration :=
  match rangeMatch s.data with
  | some (none, en) =>
    -- -HH:mm syntax found (groups 1 and 2 are None)
    (match en with
     | some (h, m) => (mkTime h m).map fun t => Duration.range none (some t)
     | none => .ok (Duration.range none none))
  | some (some (h1, m1), en) =>
    (match mkTime h1 m1 with
     | .error e => .error e
     | .ok t1 =>
       match en with
       | some (h2, m2) => (mkTime h2 m2).map fun t2 => Duration.range (some t1) (some t2)
       | none => .ok (Duration.range (some t1) none))
  | none =>
    match pyFloat s with
    | some q => .ok (Duration.hours q)
    | none => .error "The duration must be a float number or a HH:mm string"

/-! ## The date regexes

`TimesheetParser.extract_date` first tries
`re.match(r'(\d{1,2})\D(\d{1,2})\D(\d{4}|\d{2})', line)` (day/month/year) and,
only if that fails, `re.match(r'(\d{4})\D(\d{1,2})\D(\d{1,2})', line)`
(year/month/day).  Groups are kept as digit strings because the code branches
on `len(date_matches.group(...))`. -/

/-- Candidates for `\d{1,2}` keeping the matched digit string, longest first. -/
def digits12S (cs : List Char) : List (List Char × List Char) :=
  match cs with
  | c1 :: c2 :: r =>
    if c1.isDigit then
      if c2.isDigit then [([c1, c2], r), ([c1], c2 :: r)]
      else [([c1], c2 :: r)]
    else []
  | [c1] => if c1.isDigit then [([c1], [])] else []
  | [] => []

/-- The unique candidate for `\d{4}`. -/
def digits4S (cs : List Char) : List (List Char × List Char) :=
  match cs with
  | a :: b :: c :: d :: r =>
    if a.isDigit && b.isDigit && c.isDigit && d.isDigit then [([a, b, c, d], r)] else []
  | _ => []

/-- The unique candidate for `\d{2}`. -/
def digits2S (cs : List Char) : List (List Char × List Char) :=
  match cs with
  | a :: b :: r => if a.isDigit && b.isDigit then [([a, b], r)] else []
  | _ => []

/-- Candidates for the year alternation `(\d{4}|\d{2})`, 4-digit branch first. -/
def d4or2 (cs : List Char) : List (List Char × List Char) :=
  digits4S cs ++ digits2S cs

/-- Prefix match of `(\d{1,2})\D(\d{1,2})\D(\d{4}|\d{2})`; returns the three
group strings of the first successful backtracking branch. -/
def matchDMY (cs : List Char) : Option (List Char × List Char × List Char) :=
  firstSome ((digits12S cs).map fun p =>
    match p.2 with
    | c :: r2 =>
      if c.isDigit then none
      else firstSome ((digits12S r2).map fun q =>
        match q.2 with
        | c2 :: r4 =>
          if c2.isDigit then none
          else ((d4or2 r4).head?).map fun y => (p.1, q.1, y.1)
        | [] => none)
    | [] => none)

/-- Prefix match of `(\d{4})\D(\d{1,2})\D(\d{1,2})`. -/
def matchYMD (cs : List Char) : Option (List Char × List Char × List Char) :=
  firstSome ((digits4S cs).map fun p =>
    match p.2 with
    | c :: r2 =>
      if c.isDigit then none
      else firstSome ((digits12S r2).map fun q =>
        match q.2 with
        | c2 :: r4 =>
          if c2.isDigit then none
          else ((digits12S r4).head?).map fun z => (p.1, q.1, z.1)
        | [] => none)
    | [] => none)

/-- Models `TimesheetParser.extract_date`: try dd/mm/yyyy, then yyyy/mm/dd; then
interpret the groups, resolving a 2-digit year against the current millennium.
`currentYear` stands for `datetime.date.today().year`, an input of the
algorithm.  Both the no-match failure and `datetime.date` construction
failures surface as the `ValueError` the parser catches. -/
def extractDate (currentYear : Nat) (line : String) : Except String Date :=
  let m :=
    match matchDMY line.data with
    | some g => some g
    | none => matchYMD line.data
  match m with
  | none => .error "No date could be extracted from the given value"
  | some (g1, g2, g3) =>
    if g1.length = 4 then
      -- yyyy/mm/dd
      mkDate (toNatD g1) (toNatD g2) (toNatD g3)
    else if g3.length = 2 then
      -- dd/mm/yy
      mkDate (currentYear - currentYear % 1000 + toNatD g3) (toNatD g2) (toNatD g1)
    else
      -- dd/mm/yyyy
      mkDate (toNatD g3) (toNatD g2) (toNatD g1)

/-! ## Line types -/

/-- Models `EntryLine`: alias, duration, description, flags, and the cached original
text (`_text`, `None` once any other attribute has been written).  The `id`
field is a modelling artifact standing for Python object identity: lines are
compared with `in` / `is`, i.e. by identity, in the collection code. -/
structure EntryLine where
  id : Nat
  _alias : String
  duration : Duration
  description : String
  commented : Bool
  ignored : Bool
  _text : Option String
deriving DecidableEq

/-- The `alias` property: reads strip every `?` (Python `replace('?', '')`). -/
def EntryLine.aliasProp (e : EntryLine) : String :=
  String.mk (e._alias.data.filter fun c => c ≠ '?')

/-- Models `EntryLine.__init__`: assigns `_alias`, `duration`, `description`,
`commented := False`, `ignored := False` (each assignment goes through
`__setattr__`, leaving `_text = None`), then stores `text` when given. -/
def EntryLine.init (id : Nat) (aliasArg : String) (duration : Duration)
    (description : String) (text : Option String) : EntryLine :=
  let e : EntryLine :=
    { id := id, _alias := aliasArg, duration := duration, description := description
      commented := false, ignored := false, _text := none }
  match text with
  | some t => { e with _text := some t }
  | none => e

/-- Models `entry_line.alias = v` (property setter writes `_alias`; `__setattr__`
clears the cached text because the name is not `_text`). -/
def EntryLine.setAlias (e : EntryLine) (v : String) : EntryLine :=
  { e with _alias := v, _text := none }

/-- Models `entry_line.duration = v` (clears the cached text). -/
def EntryLine.setDuration (e : EntryLine) (v : Duration) : EntryLine :=
  { e with duration := v, _text := none }

/-- Models `entry_line.description = v` (clears the cached text). -/
def EntryLine.setDescription (e : EntryLine) (v : String) : EntryLine :=
  { e with description := v, _text := none }

/-- Models `entry_line.commented = v` (clears the cached text). -/
def EntryLine.setCommented (e : EntryLine) (v : Bool) : EntryLine :=
  { e with commented := v, _text := none }

/-- Models `entry_line.ignored = v` (clears the cached text). -/
def EntryLine.setIgnored (e : EntryLine) (v : Bool) : EntryLine :=
  { e with ignored := v, _text := none }

/-- Zero-padded two-digit rendering (`'%H:%M'` components). -/
def pad2 (n : Nat) : String :=
  if n < 10 then "0" ++ toString n else toString n

/-- Models `time.strftime('%H:%M')`. -/
def timeToStr (t : Time) : String :=
  pad2 t.hour.val ++ ":" ++ pad2 t.minute.val

/-- Left-pad a digit string with zeros to the given width. -/
def padZeros (w : Nat) (s : String) : String :=
  String.mk (List.replicate (w - s.length) '0') ++ s

/-- Best-effort rendering of Python `str(float)` for the plain-hours case of
`generate_text` (`'%s' % duration`).  Finite decimal expansions are rendered
exactly (`str(1.75) == '1.75'`, `str(3.0) == '3.0'`); no claim in this
development depends on the rendering of a regenerated plain-hours duration. -/
def ratToStr (q : ℚ) : String :=
  let sign := if q.num < 0 then "-" else ""
  if q.den = 1 then sign ++ toString q.num.natAbs ++ ".0"
  else
    match (List.range 30).find? fun k => (10 ^ k) % q.den = 0 with
    | some k =>
      let scaled : Nat := (q.num.natAbs * 10 ^ k) / q.den
      sign ++ toString (scaled / 10 ^ k) ++ "." ++ padZeros k (toString (scaled % 10 ^ k))
    | none => sign ++ toString q.num.natAbs ++ "/" ++ toString q.den

/-- Models `EntryLine.generate_text`. -/
def EntryLine.generateText (e : EntryLine) : String :=
  let duration :=
    match e.duration with
    | .range s t =>
      (match s with | some ts => timeToStr ts | none => "") ++ "-" ++
        (match t with | some te => timeToStr te | none => "?")
    | .hours q => ratToStr q
  let commentedPfx := if e.commented then "# " else ""
  let aliasOut := if e.ignored then e.aliasProp ++ "?" else e.aliasProp
  commentedPfx ++ aliasOut ++ " " ++ duration ++ " " ++ e.description

/-- Models `date.strftime('%d.%m.%Y')`, the default `DateLine` display format
(`date_utils.unicode_strftime` is not under src/; this models the strftime
call it wraps). -/
def dateToStr (d : Date) : String :=
  pad2 d.day ++ "." ++ pad2 d.month ++ "." ++ padZeros 4 (toString d.year)

/-- A parsed line: blank/comment `TextLine`, `DateLine` (with its original or
generated text), or `EntryLine`. -/
inductive Line where
  | text (s : String)
  | date (d : Date) (text : String)
  | entry (e : EntryLine)
deriving DecidableEq

/-- The `text` attribute a line exposes: `TextLine._text`, `DateLine.text`,
or the entry's cached text.  An `EntryLine` whose cache was invalidated has
`text is None` (reading `.strip()` on it would raise in Python); it is
returned as `none` here. -/
def Line.textOpt : Line → Option String
  | .text s => some s
  | .date _ t => some t
  | .entry e => e._text

/-- Modelled from the spec: serialization of one Document line ("the textual
document must re-parse", "`cached_text` ... any field mutation invalidates it,
forcing regeneration at serialization time").  The serializer itself is not
under src/; per the spec a line contributes its cached text when present and
a regenerated text otherwise. -/
def serializeLine : Line → String
  | .text s => s
  | .date _ t => t
  | .entry e =>
    match e._text with
    | some t => t
    | none => e.generateText

/-! ## The line parser -/

/-- Models `str.split(None, 2)`: split on whitespace runs into at most three chunks;
the remainder keeps its internal (and trailing) whitespace. -/
def pySplitNone2 (s : String) : List String :=
  let cs := s.data.dropWhile isPyWs
  match cs with
  | [] => []
  | _ =>
    let t1 := cs.takeWhile fun c => !isPyWs c
    let r1 := (cs.dropWhile fun c => !isPyWs c).dropWhile isPyWs
    match r1 with
    | [] => [String.mk t1]
    | _ =>
      let t2 := r1.takeWhile fun c => !isPyWs c
      let r2 := (r1.dropWhile fun c => !isPyWs c).dropWhile isPyWs
      match r2 with
      | [] => [String.mk t1, String.mk t2]
      | _ => [String.mk t1, String.mk t2, String.mk r2]

/-- Models `TimesheetParser._parse_entry_line`: split into exactly 3 chunks, parse
the duration, and build an `EntryLine` that caches the original line text.
The `id` is the modelling stand-in for the fresh Python object. -/
def parseEntryLine (id : Nat) (line : String) : Except String EntryLine :=
  match pySplitNone2 line with
  | [aliasTok, timeTok, descriptionTok] =>
    (parseTime timeTok).map fun d => EntryLine.init id aliasTok d descriptionTok (some line)
  | _ => .error "Couldn't split line into 3 chunks"

/-- Models `TimesheetParser.parser`, consumed eagerly as in `parse` (the generator
is drained by a list comprehension, so any `ParseError` aborts the whole
parse).  Each line is stripped; blank lines and lines starting with `#`
become `TextLine`s; a line from which a date can be extracted opens a new
date section; anything else must be an entry line inside a date section. -/
def parserGo (currentYear : Nat) : Option Date → Nat → List String → Except String (List Line)
  | _, _, [] => .ok []
  | currentDate, idx, l :: rest =>
    let line := stripStr l
    if line.data.isEmpty || line.data.head? = some '#' then
      (parserGo currentYear currentDate (idx + 1) rest).map fun out => Line.text line :: out
    else
      match extractDate currentYear line with
      | .ok d =>
        (parserGo currentYear (some d) (idx + 1) rest).map fun out => Line.date d line :: out
      | .error _ =>
        match currentDate with
        | none => .error "Entries must be defined inside a date section"
        | some _ =>
          match parseEntryLine idx line with
          | .ok e =>
            (parserGo currentYear currentDate (idx + 1) rest).map fun out => Line.entry e :: out
          | .error msg => .error msg

/-- Models `str.splitlines()` for `\n`-terminated text: split on `'\n'`, merging a
final line terminator (no trailing empty chunk).  Python also splits on
`\r`, `\v`, `\f` and several Unicode terminators; documents are restricted
to `\n` by the well-formedness predicate below. -/
def splitNl : List Char → List (List Char)
  | [] => [[]]
  | '\n' :: r => [] :: splitNl r
  | c :: r =>
    match splitNl r with
    | [] => [[c]]
    | h :: t => (c :: h) :: t

/-- Models `text.splitlines()` (see `splitNl`). -/
def pySplitlines (s : String) : List String :=
  match s.data with
  | [] => []
  | cs =>
    let ps := splitNl cs
    let ps := if ps.getLast? = some [] then ps.dropLast else ps
    ps.map String.mk

/-- Models `TimesheetParser.parse(text)`. -/
def parseDoc (currentYear : Nat) (text : String) : Except String (List Line) :=
  parserGo currentYear none 0 (pySplitlines text)

/-! ## Entry model and synchronized collection -/

/-- Models `TimesheetEntry`: fields in construction order (`line` is set first, so
the constructor's own assignments are not pushed to any line).  `line` holds
the `id` of the bound `EntryLine` (Python stores the object itself; the id
models that reference). -/
structure TimesheetEntry where
  line : Option Nat
  ignored : Bool
  commented : Bool
  alias_ : String
  description : String
  duration : Duration
deriving DecidableEq

/-- Models `TimesheetEntry.__init__(alias, duration, description)`. -/
def mkTimesheetEntry (aliasArg : String) (duration : Duration) (description : String) :
    TimesheetEntry :=
  { line := none, ignored := false, commented := false
    alias_ := aliasArg, description := description, duration := duration }

/-- Total seconds into the day of a time-of-day value (both datetimes built in
`TimesheetEntry.hours` share the same date and microsecond, so the timedelta
only sees this difference). -/
def Time.totalSeconds (t : Time) : ℤ :=
  (t.hour.val : ℤ) * 3600 + (t.minute.val : ℤ) * 60

/-- Minutes into the day of a time-of-day value. -/
def Time.totalMinutes (t : Time) : ℤ :=
  (t.hour.val : ℤ) * 60 + (t.minute.val : ℤ)

/-- Models `TimesheetEntry.hours`: a tuple duration with an unset side yields 0;
otherwise Python computes `(time_end - time_start).seconds / 3600.0`, and
`timedelta.seconds` is the nonnegative normalized remainder (a negative
difference is stored as `days = -1` plus `86400 - diff` seconds), which is
exactly Euclidean `% 86400`. -/
def TimesheetEntry.hours (e : TimesheetEntry) : ℚ :=
  match e.duration with
  | .range s t =>
    match s, t with
    | some ts, some te =>
      (((te.totalSeconds - ts.totalSeconds) % 86400 : ℤ) : ℚ) / 3600
    | _, _ => 0
  | .hours q => q

/-- Models `EntriesCollection` state: the text lines, the date → entries mapping
(`defaultdict` contents, keyed by date), the `synchronized` flag, the
`add_date_to_bottom` option, and a fresh-id counter (modelling allocation of
new Python line objects). -/
structure EntriesCollection where
  lines : List Line
  entries : List (Date × List TimesheetEntry)
  synchronized : Bool
  addDateToBottom : Bool
  nextId : Nat
deriving DecidableEq

/-- Dictionary lookup in the date → entries mapping. -/
def lookupDate (m : List (Date × α)) (d : Date) : Option α :=
  match m with
  | [] => none
  | (k, v) :: r => if k = d then some v else lookupDate r d

/-- Dictionary update of an existing key. -/
def updateDate (m : List (Date × α)) (d : Date) (v : α) : List (Date × α) :=
  m.map fun p => if p.1 = d then (d, v) else p

/-- Models `EntriesCollection.__init__` state before any load: empty lines, empty
mapping, `synchronized = True`, `add_date_to_bottom = False`. -/
def initialCollection : EntriesCollection :=
  { lines := [], entries := [], synchronized := true, addDateToBottom := false, nextId := 0 }

/-- The state in which a bulk load runs: `synchronized` lowered to `False`. -/
def loadingCollection : EntriesCollection :=
  { initialCollection with synchronized := false }

/-- The trim condition `isinstance(line, TextLine) and not line.text.strip()`.
Every line class derives `TextLine`, so the isinstance test is vacuously true
and the condition is "the line's text strips to empty".  An `EntryLine` whose
cached text is `None` would raise AttributeError in Python; it is treated as
non-blank here (no claim exercises that state). -/
def isBlankLine (l : Line) : Bool :=
  match l.textOpt with
  | some s => stripStr s = ""
  | none => false

/-- Length of the leading run of blank lines (`trim`'s first loop computes
this run's last index). -/
def leadingBlanks : List Line → Nat
  | [] => 0
  | l :: r => if isBlankLine l then leadingBlanks r + 1 else 0

/-- Python `lst[:k]` for a possibly negative `k`. -/
def pySliceTo (l : List Line) (k : ℤ) : List Line :=
  if k < 0 then l.take ((l.length : ℤ) + k).toNat else l.take k.toNat

/-- Models `EntriesCollection.trim`: both scans run over the original list; the top
slice is applied first, then the bottom index is recomputed against the new
length (`trim_bottom = len(self.lines) - trim_bottom - 1`) and sliced. -/
def trimLines (lines : List Line) : List Line :=
  let t := leadingBlanks lines
  let b := leadingBlanks lines.reverse
  let l1 := if t > 0 then lines.drop t else lines
  if b > 0 then pySliceTo l1 ((l1.length : ℤ) - (b : ℤ)) else l1

/-- Models `EntriesCollection.add_date` (gated by `@synchronized`): new dates go to
the bottom, or to the top preceded by a blank separator. -/
def addDateColl (c : EntriesCollection) (d : Date) : EntriesCollection :=
  if c.synchronized then
    if c.addDateToBottom then { c with lines := c.lines ++ [Line.date d (dateToStr d)] }
    else { c with lines := Line.date d (dateToStr d) :: Line.text "" :: c.lines }
  else c

/-- The scan loop of `EntriesCollection.add_entry`: a `DateLine` for the
target date (re)anchors `insert_at` and raises `in_date`; afterwards every
`EntryLine` advances `insert_at` and any other `DateLine` breaks the loop. -/
def scanGo (d : Date) : List Line → Nat → Bool → Option Nat → Option Nat
  | [], _, _, insertAt? => insertAt?
  | l :: rest, n, inDate, insertAt? =>
    match l with
    | .date d' _ =>
      if d' = d then scanGo d rest (n + 1) true (some n)
      else if inDate then insertAt?
      else scanGo d rest (n + 1) inDate insertAt?
    | .entry _ =>
      if inDate then scanGo d rest (n + 1) inDate (some n)
      else scanGo d rest (n + 1) inDate insertAt?
    | .text _ => scanGo d rest (n + 1) inDate insertAt?

/-- The insertion point `add_entry` computes for a date. -/
def findInsertAt (d : Date) (lines : List Line) : Option Nat :=
  scanGo d lines 0 false none

/-- Verification-side shape predicate for the suffix after the insertion
point: the scan must stop there without advancing — every line before the
first `DateLine` is not an `EntryLine`, and that first `DateLine` (if any)
is for a different date (a same-date marker would re-anchor the scan). -/
def stopOk (d : Date) : List Line → Bool
  | [] => true
  | .date d' _ :: _ => d' ≠ d
  | .entry _ :: _ => false
  | .text _ :: rest => stopOk d rest

/-- Python `list.insert(i, a)` (clamps past-the-end indices to append). -/
def insertAt : Nat → Line → List Line → List Line
  | 0, a, l => a :: l
  | _ + 1, a, [] => [a]
  | n + 1, a, x :: xs => x :: insertAt n a xs

/-- Whether a line is an `EntryLine`. -/
def Line.isEntry : Line → Bool
  | .entry _ => true
  | _ => false

/-- Whether a line is a `DateLine` for the given date. -/
def Line.isDateWith (d : Date) : Line → Bool
  | .date d' _ => d' = d
  | _ => false

/-- Whether a line is a `DateLine`. -/
def Line.isDate : Line → Bool
  | .date _ _ => true
  | _ => false

/-- Models `EntriesCollection.add_entry(date, entry)` (gated by `@synchronized`; when
the flag is down the body is skipped).  Builds the new `EntryLine` from the
entry's fields, binds `entry.line` to it, inserts it after the scan's
insertion point, and adds a blank separator when the line at the insertion
point is not an `EntryLine`.  Returns `none` on the paths where Python would
raise (`insert_at` still `None`, impossible index). -/
def addEntryColl (c : EntriesCollection) (d : Date) (x : TimesheetEntry) :
    Option (EntriesCollection × TimesheetEntry) :=
  if c.synchronized then
    match findInsertAt d c.lines with
    | none => none
    | some i =>
      let nl := EntryLine.init c.nextId x.alias_ x.duration x.description none
      let x' := { x with line := some nl.id }
      let l1 := insertAt (i + 1) (.entry nl) c.lines
      match l1.get? i with
      | none => none
      | some li =>
        let l2 := if li.isEntry then l1 else insertAt (i + 1) (.text "") l1
        some ({ c with lines := l2, nextId := c.nextId + 1 }, x')
  else some (c, x)

/-- Push a duration written through `TimesheetEntry.__setattr__` to the bound
line: `EntryLine.__setattr__` stores it and clears the cached text. -/
def setBoundDuration (lines : List Line) (id : Nat) (v : Duration) : List Line :=
  lines.map fun l =>
    match l with
    | .entry e => if e.id = id then .entry (e.setDuration v) else l
    | _ => l

/-- Models `EntriesCollection.delete_entries(entries)` (gated by `@synchronized`):
drop every `EntryLine` bound to one of the entries (object identity — the
ids), then trim. -/
def deleteEntriesColl (c : EntriesCollection) (es : List TimesheetEntry) : EntriesCollection :=
  if c.synchronized then
    let ids := es.filterMap (·.line)
    { c with lines := trimLines (c.lines.filter fun l =>
        match l with
        | .entry e => !ids.contains e.id
        | _ => true) }
  else c

/-- Models `EntriesCollection.delete_date(date)` (gated by `@synchronized`): drop
every `DateLine` for the date, then trim. -/
def deleteDateColl (c : EntriesCollection) (d : Date) : EntriesCollection :=
  if c.synchronized then
    { c with lines := trimLines (c.lines.filter fun l => !l.isDateWith d) }
  else c

/-- Models `EntriesList.append(x)` seen at collection level (the per-date list lives
inside the mapping).  Looking up a missing date runs `__missing__`: the list
is created and, when synchronized, `add_date` fires.  After the plain append,
range chaining fills an unset start from the previous entry's tuple end —
writing `x.duration`, which also pushes to the bound line.  Finally
`add_entry` mirrors the new entry into the text lines. -/
def collAppend (c : EntriesCollection) (d : Date) (x : TimesheetEntry) :
    Option EntriesCollection :=
  let createMissing :=
    match lookupDate c.entries d with
    | some lst => (c, lst)
    | none => (addDateColl { c with entries := c.entries ++ [(d, [])] } d, ([] : List TimesheetEntry))
  let c0 := createMissing.1
  let cur := createMissing.2
  let chained :=
    match cur.getLast? with
    | some prev =>
      match prev.duration, x.duration with
      | .range _ pe, .range none xe =>
        let nd := Duration.range pe xe
        let cPush :=
          match x.line with
          | some id => { c0 with lines := setBoundDuration c0.lines id nd }
          | none => c0
        ({ x with duration := nd }, cPush)
      | _, _ => (x, c0)
    | none => (x, c0)
  let x1 := chained.1
  let c1 := chained.2
  match addEntryColl c1 d x1 with
  | some (c2, x2) => some { c2 with entries := updateDate c2.entries d (cur ++ [x2]) }
  | none => none

/-- The replay loop of `init_from_str`: walk the parsed lines, track the
current date, and append a bound `TimesheetEntry` for every `EntryLine`
(`TimesheetEntry(line.alias, line.duration, line.description)` — note the
stripped `alias` property — then `timesheet_entry.line = line`).  An entry
before any date line cannot occur in parser output (Python would raise
NameError); the model skips it. -/
def replayGo : EntriesCollection → Option Date → List Line → EntriesCollection
  | c, _, [] => c
  | c, _, .date d _ :: rest => replayGo c (some d) rest
  | c, cur, .text _ :: rest => replayGo c cur rest
  | c, cur, .entry e :: rest =>
    match cur with
    | none => replayGo c cur rest
    | some d =>
      let x := { mkTimesheetEntry e.aliasProp e.duration e.description with line := some e.id }
      match collAppend c d x with
      | some c' => replayGo c' (some d) rest
      | none => replayGo c (some d) rest

/-- Models `EntriesCollection.init_from_str`: parse the whole text into `self.lines`
(a parse failure propagates before the assignment), then replay the lines
into the mapping.  `nextId` is bumped past the parser-assigned ids. -/
def initFromStr (currentYear : Nat) (c : EntriesCollection) (s : String) :
    Except String EntriesCollection :=
  match parseDoc currentYear s with
  | .error e => .error e
  | .ok out => .ok (replayGo { c with lines := out, nextId := out.length } none out)

/-- Models `EntriesCollection.__init__(entries)`: start synchronized; a truthy
`entries` blob lowers the flag, loads, and — in a `finally` — restores the
flag on both the success and the ParseError path (where Python re-raises; the
error is returned alongside the state here). -/
def initBody (currentYear : Nat) (entries : Option String) :
    EntriesCollection × Option String :=
  match entries with
  | none => (initialCollection, none)
  | some s =>
    if s.data.isEmpty then (initialCollection, none)
    else
      match initFromStr currentYear loadingCollection s with
      | .ok c => ({ c with synchronized := true }, none)
      | .error e => ({ loadingCollection with synchronized := true }, some e)

/-- Modelled from the spec: whole-document serialization ("the Document
serializes back to text on demand", round-trip joins the lines' texts with
newlines).  The serializer is not under src/. -/
def serializeColl (c : EntriesCollection) : String :=
  String.intercalate "\n" (c.lines.map serializeLine)

/-- Models `del collection[date][k]` — `EntriesList.__delitem__`: delete the chosen
entry's line from the text (then trim), remove it from the list, and when the
list became empty delete the date line as well.  `none` models the Python
error paths (missing date key / index out of range). -/
def delListItem (c : EntriesCollection) (d : Date) (k : Nat) :
    Option EntriesCollection :=
  match lookupDate c.entries d with
  | none => none
  | some lst =>
    match lst.get? k with
    | none => none
    | some x =>
      let c1 := deleteEntriesColl c [x]
      let lst' := lst.eraseIdx k
      let c2 := { c1 with entries := updateDate c1.entries d lst' }
      some (if lst'.isEmpty then deleteDateColl c2 d else c2)

/-! ## Well-formedness for the round-trip -/

/-- Does appending an entry with this duration trigger range chaining, given
the previous entry duration recorded for the date?  Mirrors
`len(self) > 1 and isinstance(x.duration, tuple) and
isinstance(self[-2].duration, tuple) and x.duration[0] is None`. -/
def chainTrigger (prev : Option Duration) (nd : Duration) : Bool :=
  match prev, nd with
  | some (.range _ _), .range none _ => true
  | _, _ => false

/-- Last recorded duration per date after part of a replay (simulates the
per-date lists' last elements). -/
def upsertDate (m : List (Date × α)) (d : Date) (v : α) : List (Date × α) :=
  if (lookupDate m d).isSome then updateDate m d v else m ++ [(d, v)]

/-- No-chaining scan over parsed lines: `true` iff replaying them never fires
range chaining (so no parsed line is mutated during the bulk load). -/
def ncGo : List (Date × Duration) → Option Date → List Line → Bool
  | _, _, [] => true
  | m, _, .date d _ :: rest => ncGo m (some d) rest
  | m, cur, .text _ :: rest => ncGo m cur rest
  | m, cur, .entry e :: rest =>
    match cur with
    | none => ncGo m cur rest
    | some d =>
      if chainTrigger (lookupDate m d) e.duration then false
      else ncGo (upsertDate m d e.duration) cur rest

/-- No entry line of the document is rewritten by range chaining during a
bulk load. -/
def noChainB (out : List Line) : Bool :=
  ncGo [] none out

/-- The duration of the last entry currently stored for a date (what
`self[-2].duration` would read on the next append). -/
def lastDur (c : EntriesCollection) (d : Date) : Option Duration :=
  (lookupDate c.entries d).bind fun lst => lst.getLast?.map (·.duration)

/-- Line terminators other than `\n` that Python `splitlines` also splits on. -/
def otherLineTerminator (c : Char) : Bool :=
  c = '\x0d' || c = '\x0b' || c = '\x0c' ||
    c = Char.ofNat 28 || c = Char.ofNat 29 || c = Char.ofNat 30 ||
    c = Char.ofNat 133 || c = Char.ofNat 8232 || c = Char.ofNat 8233

/-- Well-formed document text with no unmodified-line ambiguity: only `\n`
line terminators, every line already stripped (the parser stores stripped
text), no trailing newline (joining the split lines reproduces the text
exactly), the text parses, and no entry line is rewritten by range chaining
during the load (every loaded line stays unmodified, keeping its cached
original text). -/
def wellFormedB (currentYear : Nat) (s : String) : Bool :=
  s.data.all (fun c => !otherLineTerminator c) &&
  (pySplitlines s).all (fun l => stripStr l = l) &&
  String.intercalate "\n" (pySplitlines s) = s &&
  (match parseDoc currentYear s with
   | .ok out => noChainB out
   | .error _ => false)

end Taxi

namespace Taxi

/-! ## C2: the duration grammar literal cases -/

/-- C2.  The duration grammar maps every literal case as specified:
`"1.75"` ↦ 1.75, `"3"` ↦ 3.0, `"0900"` ↦ the decimal 900.0 (not a time),
`"0900-1015"` and `"09:00-10:15"` ↦ the range (09:00, 10:15),
`"09:00-?"` ↦ (09:00, unset), `"-10:15"` ↦ (unset, 10:15); and it raises
ParseError on `"foo"`, on `"-2500"` (hour out of range), on `"-1061"`
(minute out of range), and on `"-"`. -/
theorem parseTime_literal_cases :
    parseTime "1.75" = .ok (.hours 1.75) ∧
    parseTime "3" = .ok (.hours 3) ∧
    parseTime "0900" = .ok (.hours 900) ∧
    parseTime "0900-1015" =
      .ok (.range (some ⟨⟨9, by omega⟩, ⟨0, by omega⟩⟩) (some ⟨⟨10, by omega⟩, ⟨15, by omega⟩⟩)) ∧
    parseTime "09:00-10:15" =
      .ok (.range (some ⟨⟨9, by omega⟩, ⟨0, by omega⟩⟩) (some ⟨⟨10, by omega⟩, ⟨15, by omega⟩⟩)) ∧
    parseTime "09:00-?" = .ok (.range (some ⟨⟨9, by omega⟩, ⟨0, by omega⟩⟩) none) ∧
    parseTime "-10:15" = .ok (.range none (some ⟨⟨10, by omega⟩, ⟨15, by omega⟩⟩)) ∧
    parseTime "foo" = .error "The duration must be a float number or a HH:mm string" ∧
    parseTime "-2500" = .error "hour must be in 0..23" ∧
    parseTime "-1061" = .error "minute must be in 0..59" ∧
    parseTime "-" = .error "The duration must be a float number or a HH:mm string" := by
  repeat' constructor
  all_goals with_unfolding_all rfl

/-! ## C4: the synchronized flag -/

/-- C4.  The `synchronized` flag starts `true`; a bulk load runs on a state
with the flag lowered and the constructor restores `true` on every exit path
(no initial text, empty text, successful load, ParseError); while the flag is
down the Document mutation methods `add_entry` and `add_date` are suppressed
(they return without touching the collection). -/
theorem synchronized_flag_spec :
    initialCollection.synchronized = true ∧
    loadingCollection.synchronized = false ∧
    (∀ currentYear, (initBody currentYear none).1.synchronized = true) ∧
    (∀ currentYear s, ((initBody currentYear (some s)).1).synchronized = true) ∧
    (∀ (c : EntriesCollection) (d : Date) (x : TimesheetEntry),
      addEntryColl { c with synchronized := false } d x =
        some ({ c with synchronized := false }, x)) ∧
    (∀ (c : EntriesCollection) (d : Date),
      addDateColl { c with synchronized := false } d = { c with synchronized := false }) := by
  refine ⟨rfl, rfl, fun _ => rfl, fun currentYear s => ?_, fun c d x => rfl, fun c d => rfl⟩
  unfold initBody
  dsimp only
  split
  · rfl
  · split <;> rfl

/-! ## C6: cache invalidation on EntryLine -/

/-- C6.  Writing any field of an `EntryLine` other than the cache itself
(alias, duration, description, commented, ignored) clears the cached original
text, and a parsed line constructed with its original text keeps that text
until modified. -/
theorem entryLine_cache_invalidation :
    (∀ e v, (EntryLine.setAlias e v)._text = none) ∧
    (∀ e v, (EntryLine.setDuration e v)._text = none) ∧
    (∀ e v, (EntryLine.setDescription e v)._text = none) ∧
    (∀ e v, (EntryLine.setCommented e v)._text = none) ∧
    (∀ e v, (EntryLine.setIgnored e v)._text = none) ∧
    (∀ id a d ds t, (EntryLine.init id a d ds (some t))._text = some t) :=
  ⟨fun _ _ => rfl, fun _ _ => rfl, fun _ _ => rfl, fun _ _ => rfl, fun _ _ => rfl,
    fun _ _ _ _ _ => rfl⟩

/-! ## C10: hours of a fully-set time range -/

/-- C10.  For an entry whose duration is a time range with both endpoints
set, `hours` is computed forward on a 24-hour clock: it always lies in
[0, 24), equals the plain difference when the end is not earlier than the
start, and equals 24 minus the backwards difference when the end is earlier
(wrap past midnight rather than a negative number). -/
theorem hours_wraparound (x : TimesheetEntry) (s t : Time)
    (h : x.duration = .range (some s) (some t)) :
    0 ≤ x.hours ∧ x.hours < 24 ∧
    (s.totalMinutes ≤ t.totalMinutes →
      x.hours = ((t.totalMinutes - s.totalMinutes : ℤ) : ℚ) / 60) ∧
    (t.totalMinutes < s.totalMinutes →
      x.hours = 24 - ((s.totalMinutes - t.totalMinutes : ℤ) : ℚ) / 60) := by
  have hs1 : (s.hour.val : ℤ) < 24 := by exact_mod_cast s.hour.isLt
  have hs2 : (s.minute.val : ℤ) < 60 := by exact_mod_cast s.minute.isLt
  have ht1 : (t.hour.val : ℤ) < 24 := by exact_mod_cast t.hour.isLt
  have ht2 : (t.minute.val : ℤ) < 60 := by exact_mod_cast t.minute.isLt
  have hs0 : (0 : ℤ) ≤ s.hour.val := Int.ofNat_nonneg _
  have hs0' : (0 : ℤ) ≤ s.minute.val := Int.ofNat_nonneg _
  have ht0 : (0 : ℤ) ≤ t.hour.val := Int.ofNat_nonneg _
  have ht0' : (0 : ℤ) ≤ t.minute.val := Int.ofNat_nonneg _
  have hhours : x.hours =
      (((t.totalSeconds - s.totalSeconds) % 86400 : ℤ) : ℚ) / 3600 := by
    unfold TimesheetEntry.hours
    rw [h]
  set E : ℤ := (t.totalSeconds - s.totalSeconds) % 86400 with hE
  have hE0 : 0 ≤ E := Int.emod_nonneg _ (by norm_num)
  have hE1 : E < 86400 := Int.emod_lt_of_pos _ (by norm_num)
  refine ⟨?_, ?_, ?_, ?_⟩
  · rw [hhours]
    positivity
  · rw [hhours]
    rw [div_lt_iff₀ (by norm_num : (0:ℚ) < 3600)]
    calc ((E : ℤ) : ℚ) < ((86400 : ℤ) : ℚ) := by exact_mod_cast hE1
    _ = 24 * 3600 := by norm_num
  · intro hle
    have hEeq : E = 60 * (t.totalMinutes - s.totalMinutes) := by
      unfold Time.totalSeconds Time.totalMinutes at *
      omega
    rw [hhours, hEeq]
    push_cast
    ring
  · intro hlt
    have hEeq : E = 60 * (t.totalMinutes - s.totalMinutes) + 86400 := by
      unfold Time.totalSeconds Time.totalMinutes at *
      omega
    rw [hhours, hEeq]
    push_cast
    field_simp
    ring

/-- Witness for `hours_wraparound`: 22:00 to 06:00 wraps to 8 hours. -/
theorem hours_wraparound_witness :
    (mkTimesheetEntry "a" (.range (some ⟨⟨22, by omega⟩, ⟨0, by omega⟩⟩)
        (some ⟨⟨6, by omega⟩, ⟨0, by omega⟩⟩)) "b").hours = 8 := by
  have h := hours_wraparound
    (mkTimesheetEntry "a" (.range (some ⟨⟨22, by omega⟩, ⟨0, by omega⟩⟩)
      (some ⟨⟨6, by omega⟩, ⟨0, by omega⟩⟩)) "b")
    ⟨⟨22, by omega⟩, ⟨0, by omega⟩⟩ ⟨⟨6, by omega⟩, ⟨0, by omega⟩⟩ rfl
  have h2 := h.2.2.2 (by norm_num [Time.totalMinutes])
  rw [h2]
  norm_num [Time.totalMinutes]

/-! ## Backtracking-search lemmas -/

/-- Any property holding of every `some` element of the candidate list holds
of the first successful one. -/
theorem firstSome_pred {α} (p : α → Prop) :
    ∀ (L : List (Option α)), (∀ o ∈ L, ∀ x, o = some x → p x) →
      ∀ y, firstSome L = some y → p y := by
  intro L
  induction L with
  | nil => intro _ y hy; simp [firstSome] at hy
  | cons o r ih =>
    intro hall y hy
    cases o with
    | some x =>
      simp only [firstSome] at hy
      exact hall _ (List.mem_cons_self _ _) _ (by rw [hy])
    | none =>
      simp only [firstSome] at hy
      exact ih (fun o ho x hx => hall o (List.mem_cons_of_mem _ ho) x hx) y hy

/-! ## C7: both-unset time ranges -/

/-- A time-range match with both group pairs `None` can only come from the
group-absent start branch followed by the `?` end branch, i.e. the token
begins with `-?`. -/
theorem rangeMatch_both_none (cs : List Char)
    (h : rangeMatch cs = some (none, none)) : ∃ r, cs = '-' :: '?' :: r := by
  unfold rangeMatch at h
  have := firstSome_pred (fun y : Option (Nat × Nat) × Option (Nat × Nat) =>
    y.1 = none → y.2 = none → ∃ r, cs = '-' :: '?' :: r) _ ?_ _ h
  · exact this rfl rfl
  intro o ho y hoy
  rcases List.mem_map.1 ho with ⟨q, hq, rfl⟩
  rcases List.mem_append.1 hq with hq1 | hq2
  · -- start-group-present candidates always report `some` start groups
    rcases List.mem_map.1 hq1 with ⟨pp, _, rfl⟩
    intro h1 h2
    exfalso
    split at hoy
    · rcases Option.map_eq_some'.1 hoy with ⟨z, _, rfl⟩
      simp at h1
    · exact Option.noConfusion hoy
  · -- the group-absent candidate: the tail after `-` must start with `?`
    simp only [List.mem_singleton] at hq2
    subst hq2
    intro h1 h2
    split at hoy
    · next r2 heq =>
      rcases Option.map_eq_some'.1 hoy with ⟨z, hz, rfl⟩
      simp only at h2
      -- the head end candidate has `none` groups only when the digit branch
      -- produced no candidate and the input starts with `?`
      unfold endCands at hz
      cases hhm : hmCands r2 with
      | cons a t =>
        rw [hhm] at hz
        simp only [List.map_cons, List.cons_append, List.head?_cons,
          Option.some.injEq] at hz
        rw [← hz] at h2
        simp at h2
      | nil =>
        rw [hhm] at hz
        simp only [List.map_nil, List.nil_append] at hz
        split at hz
        · exact ⟨_, heq⟩
        · exact absurd hz (by simp)
    · exact Option.noConfusion hoy

/-- C7 (amended).  For every token accepted by the time-range branch, at most
one of the endpoints is unset — except tokens beginning with `-?` (start
groups absent and a literal `?` end), which produce a range with both
endpoints unset. -/
theorem parseTime_both_unset_only_dash_question (s : String) (a b : Option Time)
    (h : parseTime s = .ok (.range a b)) (ha : a = none) (hb : b = none) :
    ∃ r, s.data = '-' :: '?' :: r := by
  subst ha hb
  unfold parseTime at h
  split at h
  · next en heq =>
    cases en with
    | some hm =>
      exfalso
      rcases hm with ⟨hh, mm⟩
      dsimp only at h
      cases hmk : mkTime hh mm with
      | ok t => rw [hmk] at h; simp [Except.map] at h
      | error e => rw [hmk] at h; simp [Except.map] at h
    | none => exact rangeMatch_both_none _ heq
  · next h1 m1 en heq =>
    exfalso
    split at h
    · exact Except.noConfusion h
    · cases en with
      | some hm2 =>
        rcases hm2 with ⟨h2, m2⟩
        dsimp only at h
        cases hmk : mkTime h2 m2 with
        | ok t => rw [hmk] at h; simp [Except.map] at h
        | error e => rw [hmk] at h; simp [Except.map] at h
      | none => simp at h
  · exfalso
    split at h
    · simp at h
    · exact Except.noConfusion h

/-- C7 counterexample: the token `-?` is accepted by the time-range branch
and parses to a range with both endpoints unset. -/
theorem parseTime_dash_question_counterexample :
    parseTime "-?" = .ok (.range none none) := by
  with_unfolding_all rfl

/-- Witness for `parseTime_both_unset_only_dash_question` at the token
`"-?"`. -/
theorem parseTime_both_unset_witness :
    parseTime "-?" = .ok (.range none none) ∧
      ∃ r, ("-?" : String).data = '-' :: '?' :: r :=
  ⟨by with_unfolding_all rfl,
    parseTime_both_unset_only_dash_question "-?" none none (by with_unfolding_all rfl) rfl rfl⟩

/-! ## C5: the date grammar -/

/-- Every group matched by `\d{1,2}` has one or two characters. -/
theorem digits12S_mem_len {cs : List Char} {g r : List Char}
    (h : (g, r) ∈ digits12S cs) : g.length = 1 ∨ g.length = 2 := by
  rcases cs with _ | ⟨c1, _ | ⟨c2, rest⟩⟩
  · simp [digits12S] at h
  · simp only [digits12S] at h
    split at h
    · simp at h
      rcases h with ⟨rfl, rfl⟩
      simp
    · simp at h
  · simp only [digits12S] at h
    split at h
    · split at h
      · simp at h
        rcases h with ⟨rfl, _⟩ | ⟨rfl, _⟩ <;> simp
      · simp at h
        rcases h with ⟨rfl, _⟩
        simp
    · simp at h

/-- Every group matched by `\d{4}` has four characters. -/
theorem digits4S_mem_len {cs : List Char} {g r : List Char}
    (h : (g, r) ∈ digits4S cs) : g.length = 4 := by
  rcases cs with _ | ⟨a, _ | ⟨b, _ | ⟨c, _ | ⟨d, rest⟩⟩⟩⟩
  · simp [digits4S] at h
  · simp [digits4S] at h
  · simp [digits4S] at h
  · simp [digits4S] at h
  · simp only [digits4S] at h
    split at h
    · simp at h
      rcases h with ⟨rfl, _⟩
      simp
    · simp at h

/-- The first group reported by the day/month/year regex is 1–2 digits. -/
theorem matchDMY_g1_len {cs g1 g2 g3} (h : matchDMY cs = some (g1, g2, g3)) :
    g1.length = 1 ∨ g1.length = 2 := by
  unfold matchDMY at h
  have := firstSome_pred (fun y : List Char × List Char × List Char =>
    y.1.length = 1 ∨ y.1.length = 2) _ ?_ _ h
  · exact this
  intro o ho y hoy
  rcases List.mem_map.1 ho with ⟨q, hq, rfl⟩
  have hlen := digits12S_mem_len (show (q.1, q.2) ∈ digits12S cs from by
    rcases q with ⟨qa, qb⟩; exact hq)
  split at hoy
  · split at hoy
    · exact Option.noConfusion hoy
    · have := firstSome_pred (fun y : List Char × List Char × List Char =>
        y.1.length = 1 ∨ y.1.length = 2) _ ?_ _ hoy
      · exact this
      intro o2 ho2 y2 hoy2
      rcases List.mem_map.1 ho2 with ⟨q2, _, rfl⟩
      split at hoy2
      · split at hoy2
        · exact Option.noConfusion hoy2
        · rcases Option.map_eq_some'.1 hoy2 with ⟨z, _, rfl⟩
          exact hlen
      · exact Option.noConfusion hoy2
  · exact Option.noConfusion hoy

/-- The first group reported by the year/month/day regex has four digits. -/
theorem matchYMD_g1_len {cs g1 g2 g3} (h : matchYMD cs = some (g1, g2, g3)) :
    g1.length = 4 := by
  unfold matchYMD at h
  have := firstSome_pred (fun y : List Char × List Char × List Char =>
    y.1.length = 4) _ ?_ _ h
  · exact this
  intro o ho y hoy
  rcases List.mem_map.1 ho with ⟨q, hq, rfl⟩
  have hlen := digits4S_mem_len (show (q.1, q.2) ∈ digits4S cs from by
    rcases q with ⟨qa, qb⟩; exact hq)
  split at hoy
  · split at hoy
    · exact Option.noConfusion hoy
    · have := firstSome_pred (fun y : List Char × List Char × List Char =>
        y.1.length = 4) _ ?_ _ hoy
      · exact this
      intro o2 ho2 y2 hoy2
      rcases List.mem_map.1 ho2 with ⟨q2, _, rfl⟩
      split at hoy2
      · split at hoy2
        · exact Option.noConfusion hoy2
        · rcases Option.map_eq_some'.1 hoy2 with ⟨z, _, rfl⟩
          exact hlen
      · exact Option.noConfusion hoy2
  · exact Option.noConfusion hoy

/-- C5.  The date grammar tries the `D{1,2} sep D{1,2} sep (D{4}|D{2})`
day/month/year layout first, and the `D{4} sep D{1,2} sep D{1,2}`
year/month/day layout only when the first fails; a matched 2-digit year
resolves to `current_millennium + year` with
`current_millennium = current_year - current_year % 1000`; when neither
layout matches, extraction fails with the "no date could be extracted"
error. -/
theorem extractDate_spec (currentYear : Nat) (line : String) :
    (∀ g1 g2 g3, matchDMY line.data = some (g1, g2, g3) →
      extractDate currentYear line =
        if g3.length = 2 then
          mkDate (currentYear - currentYear % 1000 + toNatD g3) (toNatD g2) (toNatD g1)
        else mkDate (toNatD g3) (toNatD g2) (toNatD g1)) ∧
    (matchDMY line.data = none → ∀ g1 g2 g3, matchYMD line.data = some (g1, g2, g3) →
      extractDate currentYear line = mkDate (toNatD g1) (toNatD g2) (toNatD g3)) ∧
    (matchDMY line.data = none → matchYMD line.data = none →
      extractDate currentYear line = .error "No date could be extracted from the given value") := by
  refine ⟨?_, ?_, ?_⟩
  · intro g1 g2 g3 h
    have hlen := matchDMY_g1_len h
    have h4 : g1.length ≠ 4 := by omega
    unfold extractDate
    rw [h]
    simp only [if_neg h4]
  · intro h1 g1 g2 g3 h2
    have hlen := matchYMD_g1_len h2
    unfold extractDate
    rw [h1, h2]
    simp only [if_pos hlen]
  · intro h1 h2
    unfold extractDate
    rw [h1, h2]

/-- Witness for `extractDate_spec`: `"05/08/12"` matches the day/month/year
layout and the 2-digit year 12 resolves against current year 2014 to 2012. -/
theorem extractDate_spec_witness :
    matchDMY ("05/08/12" : String).data = some (['0','5'], ['0','8'], ['1','2']) ∧
      extractDate 2014 "05/08/12" = .ok ⟨2012, 8, 5⟩ := by
  constructor
  · with_unfolding_all rfl
  · rw [(extractDate_spec 2014 "05/08/12").1 ['0','5'] ['0','8'] ['1','2']
      (by with_unfolding_all rfl)]
    with_unfolding_all rfl

/-! ## C9: trim -/

/-- All-blank prefixes are counted in full when followed by a non-blank. -/
theorem leadingBlanks_append (A : List Line) (h : Line) (R : List Line)
    (hA : ∀ l ∈ A, isBlankLine l = true) (hh : isBlankLine h = false) :
    leadingBlanks (A ++ h :: R) = A.length := by
  induction A with
  | nil => simp [leadingBlanks, hh]
  | cons a A ih =>
    have ha := hA a (List.mem_cons_self _ _)
    simp only [List.cons_append, leadingBlanks, ha, if_true, List.length_cons,
      List.append_eq]
    exact congrArg (· + 1) (ih (fun l hl => hA l (List.mem_cons_of_mem _ hl)))

/-- An all-blank list is counted in full. -/
theorem leadingBlanks_all (L : List Line) (hL : ∀ l ∈ L, isBlankLine l = true) :
    leadingBlanks L = L.length := by
  induction L with
  | nil => rfl
  | cons a A ih =>
    simp only [leadingBlanks, hL a (List.mem_cons_self _ _), if_pos]
    rw [ih (fun l hl => hL l (List.mem_cons_of_mem _ hl))]
    simp

/-- Trimming an all-blank document empties it. -/
theorem trimLines_all_blank (L : List Line) (hL : ∀ l ∈ L, isBlankLine l = true) :
    trimLines L = [] := by
  unfold trimLines
  have ht := leadingBlanks_all L hL
  have hb := leadingBlanks_all L.reverse (fun l hl => hL l (List.mem_reverse.1 hl))
  rw [List.length_reverse] at hb
  cases L with
  | nil => rfl
  | cons a A =>
    simp only [ht, hb]
    rw [if_pos (by simp)]
    rw [List.drop_length]
    rw [if_pos (by simp)]
    unfold pySliceTo
    simp

/-- C9 (amended).  `trim` removes a maximal run of blank (whitespace-only)
lines from the very start of the Document and a maximal run from the very
end, and leaves every interior line untouched; comment lines are not blank
and are never removed. -/
theorem trimLines_blank_runs (A M B : List Line)
    (hA : ∀ l ∈ A, isBlankLine l = true) (hB : ∀ l ∈ B, isBlankLine l = true)
    (hhead : ∀ l, M.head? = some l → isBlankLine l = false)
    (hlast : ∀ l, M.getLast? = some l → isBlankLine l = false) :
    trimLines (A ++ M ++ B) = M := by
  cases hM : M with
  | nil =>
    subst hM
    refine trimLines_all_blank _ ?_
    intro l hl
    simp only [List.append_nil, List.mem_append] at hl
    rcases hl with hl | hl
    · exact hA l hl
    · exact hB l hl
  | cons mh mt =>
    rcases List.eq_nil_or_concat M with hM0 | ⟨M0, lst, hM0⟩
    · rw [hM] at hM0; exact absurd hM0 (by simp)
    rw [List.concat_eq_append] at hM0
    have hmh : isBlankLine mh = false := hhead mh (by rw [hM]; rfl)
    have hlst : isBlankLine lst = false := hlast lst (by rw [hM0]; simp)
    rw [← hM]
    have hlead : leadingBlanks (A ++ M ++ B) = A.length := by
      rw [hM]
      have : A ++ (mh :: mt) ++ B = A ++ mh :: (mt ++ B) := by simp
      rw [this]
      exact leadingBlanks_append A mh (mt ++ B) hA hmh
    have htrail : leadingBlanks (A ++ M ++ B).reverse = B.length := by
      rw [hM0]
      have : (A ++ (M0 ++ [lst]) ++ B).reverse =
          B.reverse ++ lst :: (M0.reverse ++ A.reverse) := by
        simp
      rw [this]
      rw [leadingBlanks_append B.reverse lst (M0.reverse ++ A.reverse)
        (fun l hl => hB l (List.mem_reverse.1 hl)) hlst]
      simp
    unfold trimLines
    dsimp only
    rw [hlead, htrail]
    have hdrop : (A ++ M ++ B).drop A.length = M ++ B := by
      rw [List.append_assoc]
      exact List.drop_left A (M ++ B)
    have hstep1 : (if A.length > 0 then (A ++ M ++ B).drop A.length else A ++ M ++ B) =
        M ++ B := by
      by_cases hA0 : A.length > 0
      · rw [if_pos hA0, hdrop]
      · have : A = [] := List.length_eq_zero.1 (by omega)
        subst this
        simp
    rw [hstep1]
    by_cases hB0 : B.length > 0
    · rw [if_pos hB0]
      unfold pySliceTo
      have hlen : ((M ++ B).length : ℤ) - (B.length : ℤ) = (M.length : ℤ) := by
        simp
      rw [hlen]
      rw [if_neg (by omega)]
      have : ((M.length : ℤ)).toNat = M.length := Int.toNat_ofNat _
      rw [this]
      exact List.take_left M B
    · rw [if_neg hB0]
      have : B = [] := List.length_eq_zero.1 (by omega)
      subst this
      simp

/-- C9 counterexample: a leading comment-only line (`"# c"`) is not removed
by `trim` (the claim, which counts comment lines into the trimmed runs,
demands that it be removed). -/
theorem trimLines_comment_counterexample :
    trimLines [Line.text "# c", Line.date ⟨2014, 1, 1⟩ "01.01.2014"] =
      [Line.text "# c", Line.date ⟨2014, 1, 1⟩ "01.01.2014"] ∧
    trimLines [Line.text "# c", Line.date ⟨2014, 1, 1⟩ "01.01.2014"] ≠
      [Line.date ⟨2014, 1, 1⟩ "01.01.2014"] := by
  constructor
  · with_unfolding_all rfl
  · intro h
    rw [(by with_unfolding_all rfl :
      trimLines [Line.text "# c", Line.date ⟨2014, 1, 1⟩ "01.01.2014"] =
        [Line.text "# c", Line.date ⟨2014, 1, 1⟩ "01.01.2014"])] at h
    simp at h

/-- Witness for `trimLines_blank_runs`: two leading blanks and one trailing
blank are removed, the interior (including its blank) is untouched. -/
theorem trimLines_blank_runs_witness :
    trimLines [Line.text "", Line.text " ",
        Line.date ⟨2014, 1, 1⟩ "01.01.2014", Line.text "", Line.text "# c",
        Line.text ""] =
      [Line.date ⟨2014, 1, 1⟩ "01.01.2014", Line.text "", Line.text "# c"] := by
  have h := trimLines_blank_runs [Line.text "", Line.text " "]
    [Line.date ⟨2014, 1, 1⟩ "01.01.2014", Line.text "", Line.text "# c"]
    [Line.text ""]
    (by intro l hl; fin_cases hl <;> with_unfolding_all rfl)
    (by intro l hl; fin_cases hl; with_unfolding_all rfl)
    (by
      intro l hl
      simp only [List.head?_cons, Option.some.injEq] at hl
      subst hl
      with_unfolding_all rfl)
    (by
      intro l hl
      simp only [List.getLast?_cons_cons, List.getLast?_singleton,
        Option.some.injEq] at hl
      subst hl
      with_unfolding_all rfl)
  simp only [List.cons_append, List.nil_append] at h
  exact h

/-! ## C3: add_entry insertion point -/

/-- The scan passes over a prefix containing no marker for the target date
without changing its state. -/
theorem scanGo_no_marker (d : Date) (P : List Line)
    (hP : ∀ l ∈ P, l.isDateWith d = false) (R : List Line) (n : Nat) (acc : Option Nat) :
    scanGo d (P ++ R) n false acc = scanGo d R (n + P.length) false acc := by
  induction P generalizing n with
  | nil => simp
  | cons a P ih =>
    have ha := hP a (List.mem_cons_self _ _)
    have hrest : ∀ l ∈ P, l.isDateWith d = false :=
      fun l hl => hP l (List.mem_cons_of_mem _ hl)
    cases a with
    | date d' t =>
      have hne : ¬ (d' = d) := by simpa [Line.isDateWith] using ha
      simp only [List.cons_append, scanGo, if_neg hne, if_neg (Bool.false_ne_true), List.append_eq]
      rw [ih hrest]
      congr 1
      simp
      omega
    | entry e =>
      simp only [List.cons_append, scanGo, if_neg (Bool.false_ne_true), List.append_eq]
      rw [ih hrest]
      congr 1
      simp
      omega
    | text s =>
      simp only [List.cons_append, scanGo, List.append_eq]
      rw [ih hrest]
      congr 1
      simp
      omega

/-- A marker line for the target date (re)anchors the scan. -/
theorem scanGo_marker (d : Date) (t : String) (R : List Line) (n : Nat)
    (b : Bool) (acc : Option Nat) :
    scanGo d (Line.date d t :: R) n b acc = scanGo d R (n + 1) true (some n) := by
  simp [scanGo]

/-- Inside the date section, the scan walks a run with no `DateLine` and
lands on the last `EntryLine` of the run. -/
theorem scanGo_entries_last (d : Date) (Q : List Line)
    (hQ : ∀ l ∈ Q, l.isDate = false) (e : EntryLine) (R : List Line) (n : Nat)
    (acc : Option Nat) :
    scanGo d (Q ++ Line.entry e :: R) n true acc =
      scanGo d R (n + Q.length + 1) true (some (n + Q.length)) := by
  induction Q generalizing n acc with
  | nil => simp [scanGo]
  | cons a Q ih =>
    have hrest : ∀ l ∈ Q, l.isDate = false :=
      fun l hl => hQ l (List.mem_cons_of_mem _ hl)
    cases a with
    | date d' t =>
      exact absurd (hQ _ (List.mem_cons_self _ _)) (by simp [Line.isDate])
    | entry e2 =>
      simp only [List.cons_append, scanGo, if_pos rfl, List.append_eq]
      rw [ih hrest]
      have h1 : n + 1 + Q.length = n + (Q.length + 1) := by omega
      rw [h1]
      simp
    | text s =>
      simp only [List.cons_append, scanGo, List.append_eq]
      rw [ih hrest]
      have h1 : n + 1 + Q.length = n + (Q.length + 1) := by omega
      rw [h1]
      simp

/-- On a `stopOk` suffix the scan returns its accumulator unchanged. -/
theorem scanGo_stop (d : Date) (S : List Line) (hS : stopOk d S = true)
    (n : Nat) (acc : Option Nat) : scanGo d S n true acc = acc := by
  induction S generalizing n with
  | nil => rfl
  | cons a S ih =>
    cases a with
    | date d' t =>
      have hne : ¬ (d' = d) := by simpa [stopOk] using hS
      simp [scanGo, if_neg hne]
    | entry e => exact absurd hS (by simp [stopOk])
    | text s =>
      have : stopOk d S = true := by simpa [stopOk] using hS
      simp only [scanGo]
      exact ih this _

/-- Inserting at an exact-length prefix splices the element in place. -/
theorem insertAt_append (A : List Line) (x : Line) (B : List Line) :
    insertAt A.length x (A ++ B) = A ++ x :: B := by
  induction A with
  | nil => rfl
  | cons a A ih =>
    simp only [List.length_cons, List.cons_append, insertAt, List.append_eq]
    rw [ih]

/-- Inserting one past an exact-length prefix skips the next element. -/
theorem insertAt_append_cons (A : List Line) (b x : Line) (B : List Line) :
    insertAt (A.length + 1) x (A ++ b :: B) = A ++ b :: x :: B := by
  induction A with
  | nil => rfl
  | cons a A ih =>
    simp only [List.length_cons, List.cons_append, insertAt, List.append_eq]
    rw [ih]

/-- Indexing just past an exact-length prefix. -/
theorem get?_append_cons (A : List Line) (b : Line) (B : List Line) :
    (A ++ b :: B).get? A.length = some b := by
  induction A with
  | nil => rfl
  | cons a A ih =>
    simpa using ih

/-- C3.  `append_entry(date, entry)` for a date whose `DateMarker` exists in
the Document: with entries already present under the date, the new
`EntryRecord` line is inserted immediately after the last existing
`EntryRecord` line under that date (the scan stopping at the next
`DateMarker` or end of document) and no prior line is reordered; with no
entry line yet under that date, the new line lands right after the
`DateMarker` with exactly one blank separator between marker and entry.  In
both cases the entry's line binding is set to the newly created line. -/
theorem addEntry_insertion (c : EntriesCollection) (d : Date) (x : TimesheetEntry)
    (dtxt : String) (P S : List Line)
    (hsync : c.synchronized = true)
    (hP : ∀ l ∈ P, l.isDateWith d = false)
    (hS : stopOk d S = true) :
    (∀ (Q : List Line) (e0 : EntryLine),
      c.lines = P ++ Line.date d dtxt :: Q ++ Line.entry e0 :: S →
      (∀ l ∈ Q, l.isDate = false) →
      addEntryColl c d x = some
        ({ c with
            lines := P ++ Line.date d dtxt :: Q ++ Line.entry e0 ::
              Line.entry (EntryLine.init c.nextId x.alias_ x.duration x.description none) :: S,
            nextId := c.nextId + 1 },
          { x with line := some c.nextId })) ∧
    (c.lines = P ++ Line.date d dtxt :: S →
      addEntryColl c d x = some
        ({ c with
            lines := P ++ Line.date d dtxt :: Line.text "" ::
              Line.entry (EntryLine.init c.nextId x.alias_ x.duration x.description none) :: S,
            nextId := c.nextId + 1 },
          { x with line := some c.nextId })) := by
  constructor
  · intro Q e0 hlines hQ
    -- note: `P ++ Line.date d dtxt :: Q ++ Line.entry e0 :: S` parses as
    -- `(P ++ (date :: Q)) ++ (entry e0 :: S)`
    have hassoc : c.lines = P ++ (Line.date d dtxt :: (Q ++ Line.entry e0 :: S)) := by
      rw [hlines]
      simp
    have hfind : findInsertAt d c.lines =
        some (P.length + 1 + Q.length) := by
      unfold findInsertAt
      rw [hassoc, scanGo_no_marker d P hP _ 0 none, scanGo_marker,
        scanGo_entries_last d Q hQ e0 S _ _, scanGo_stop d S hS]
      congr 1
      omega
    have hlen : P.length + 1 + Q.length = (P ++ Line.date d dtxt :: Q).length := by
      simp
      omega
    unfold addEntryColl
    rw [hsync, if_pos rfl, hfind]
    dsimp only
    rw [hlen, hlines, insertAt_append_cons, get?_append_cons]
    dsimp only [Line.isEntry]
    rw [if_pos rfl]
    simp [EntryLine.init]

  · intro hlines
    have hfind : findInsertAt d c.lines = some P.length := by
      unfold findInsertAt
      rw [hlines, scanGo_no_marker d P hP _ 0 none, scanGo_marker,
        scanGo_stop d S hS]
      congr 1
      omega
    unfold addEntryColl
    rw [hsync, if_pos rfl, hfind]
    dsimp only
    rw [hlines, insertAt_append_cons, get?_append_cons]
    dsimp only [Line.isEntry]
    rw [if_neg (by simp)]
    rw [insertAt_append_cons]
    simp [EntryLine.init]

/-- Witness for `addEntry_insertion`: both cases at concrete states — a date
with one existing entry (insert after it) and a date with none (blank
separator inserted). -/
theorem addEntry_insertion_witness :
    addEntryColl
        { lines := [Line.date ⟨2014, 1, 1⟩ "01.01.2014", Line.text "",
            Line.entry (EntryLine.init 0 "foo" (.hours 1) "bar" (some "foo 1 bar"))],
          entries := [], synchronized := true, addDateToBottom := false, nextId := 7 }
        ⟨2014, 1, 1⟩ (mkTimesheetEntry "baz" (.hours 2) "qux") =
      some ({ lines := [Line.date ⟨2014, 1, 1⟩ "01.01.2014", Line.text "",
                Line.entry (EntryLine.init 0 "foo" (.hours 1) "bar" (some "foo 1 bar")),
                Line.entry (EntryLine.init 7 "baz" (.hours 2) "qux" none)],
              entries := [], synchronized := true, addDateToBottom := false, nextId := 8 },
            { mkTimesheetEntry "baz" (.hours 2) "qux" with line := some 7 }) ∧
    addEntryColl
        { lines := [Line.date ⟨2014, 1, 1⟩ "01.01.2014", Line.text "# x"],
          entries := [], synchronized := true, addDateToBottom := false, nextId := 7 }
        ⟨2014, 1, 1⟩ (mkTimesheetEntry "baz" (.hours 2) "qux") =
      some ({ lines := [Line.date ⟨2014, 1, 1⟩ "01.01.2014", Line.text "",
                Line.entry (EntryLine.init 7 "baz" (.hours 2) "qux" none), Line.text "# x"],
              entries := [], synchronized := true, addDateToBottom := false, nextId := 8 },
            { mkTimesheetEntry "baz" (.hours 2) "qux" with line := some 7 }) := by
  constructor
  · have h := (addEntry_insertion
      { lines := [Line.date ⟨2014, 1, 1⟩ "01.01.2014", Line.text "",
          Line.entry (EntryLine.init 0 "foo" (.hours 1) "bar" (some "foo 1 bar"))],
        entries := [], synchronized := true, addDateToBottom := false, nextId := 7 }
      ⟨2014, 1, 1⟩ (mkTimesheetEntry "baz" (.hours 2) "qux") "01.01.2014" [] []
      rfl (by intro l hl; simp at hl) (by with_unfolding_all rfl)).1
      [Line.text ""] (EntryLine.init 0 "foo" (.hours 1) "bar" (some "foo 1 bar"))
      rfl (by intro l hl; simp at hl; subst hl; with_unfolding_all rfl)
    simpa using h
  · have h := (addEntry_insertion
      { lines := [Line.date ⟨2014, 1, 1⟩ "01.01.2014", Line.text "# x"],
        entries := [], synchronized := true, addDateToBottom := false, nextId := 7 }
      ⟨2014, 1, 1⟩ (mkTimesheetEntry "baz" (.hours 2) "qux") "01.01.2014" []
      [Line.text "# x"]
      rfl (by intro l hl; simp at hl) (by with_unfolding_all rfl)).2 rfl
    simpa using h

/-! ## C8: deleting the last entry of a date -/

/-- Updating a present key makes lookup return the new value. -/
theorem lookup_updateDate {α} (m : List (Date × α)) (d : Date) (v : α)
    (h : (lookupDate m d).isSome) : lookupDate (updateDate m d v) d = some v := by
  induction m with
  | nil => simp [lookupDate] at h
  | cons p m ih =>
    obtain ⟨k, w⟩ := p
    simp only [updateDate, List.map_cons]
    dsimp only
    by_cases hk : k = d
    · subst hk
      rw [if_pos rfl]
      simp [lookupDate]
    · rw [if_neg hk]
      simp only [lookupDate, if_neg hk] at h ⊢
      exact ih h

/-- A Python prefix slice is a sublist. -/
theorem pySliceTo_subset (M : List Line) (k : ℤ) : pySliceTo M k ⊆ M := by
  unfold pySliceTo
  split
  · exact List.take_subset _ _
  · exact List.take_subset _ _

/-- Trimming only removes lines. -/
theorem mem_trimLines {L : List Line} {l : Line} (h : l ∈ trimLines L) : l ∈ L := by
  have hdrop : l ∈ (if leadingBlanks L > 0 then L.drop (leadingBlanks L) else L) → l ∈ L := by
    intro ht
    split at ht
    · exact List.drop_subset _ _ ht
    · exact ht
  unfold trimLines at h
  dsimp only at h
  split at h
  · exact hdrop (pySliceTo_subset _ _ h)
  · exact hdrop h

/-- C8 (amended).  Deleting the last entry of a date through its
`EntriesList` removes the date's `DateMarker` line(s) from the Document; the
date's now-empty `EntriesList` remains in the collection mapping (the key is
not removed). -/
theorem delete_last_entry (c : EntriesCollection) (d : Date) (e : TimesheetEntry)
    (hsync : c.synchronized = true)
    (hlook : lookupDate c.entries d = some [e]) :
    ∃ c', delListItem c d 0 = some c' ∧
      lookupDate c'.entries d = some [] ∧
      ∀ l ∈ c'.lines, l.isDateWith d = false := by
  have he : (deleteEntriesColl c [e]).entries = c.entries := by
    unfold deleteEntriesColl
    rw [hsync]
    rfl
  have hesync : (deleteEntriesColl c [e]).synchronized = true := by
    unfold deleteEntriesColl
    rw [hsync]
    rfl
  have h1 : delListItem c d 0 = some (deleteDateColl
      { deleteEntriesColl c [e] with
          entries := updateDate (deleteEntriesColl c [e]).entries d [] } d) := by
    unfold delListItem
    rw [hlook]
    rfl
  refine ⟨_, h1, ?_, ?_⟩
  · have hd : ∀ (cc : EntriesCollection), (deleteDateColl cc d).entries = cc.entries := by
      intro cc
      unfold deleteDateColl
      split <;> rfl
    rw [hd]
    dsimp only
    rw [he]
    exact lookup_updateDate c.entries d [] (by rw [hlook]; rfl)
  · intro l hl
    unfold deleteDateColl at hl
    rw [show ({ deleteEntriesColl c [e] with
        entries := updateDate (deleteEntriesColl c [e]).entries d [] } :
          EntriesCollection).synchronized = true from hesync] at hl
    rw [if_pos rfl] at hl
    dsimp only at hl
    have hmem := mem_trimLines hl
    have := List.of_mem_filter hmem
    simpa using this

/-- C8 counterexample: deleting the only entry of the only date removes the
`DateMarker` line, but the collection still maps the date to an (empty)
list — the date's list is not removed from the collection, contradicting the
claim. -/
theorem delete_last_entry_counterexample :
    delListItem
        { lines := [Line.date ⟨2014, 1, 1⟩ "01.01.2014", Line.text "",
            Line.entry (EntryLine.init 0 "foo" (.hours 1) "bar" (some "foo 1 bar"))],
          entries := [(⟨2014, 1, 1⟩,
            [{ line := some 0, ignored := false, commented := false,
               alias_ := "foo", description := "bar", duration := .hours 1 }])],
          synchronized := true, addDateToBottom := false, nextId := 1 }
        ⟨2014, 1, 1⟩ 0 =
      some { lines := [], entries := [(⟨2014, 1, 1⟩, [])], synchronized := true,
             addDateToBottom := false, nextId := 1 } ∧
    lookupDate [(⟨2014, 1, 1⟩, ([] : List TimesheetEntry))] ⟨2014, 1, 1⟩ ≠ none := by
  constructor
  · with_unfolding_all rfl
  · intro h
    rw [show lookupDate [(⟨2014, 1, 1⟩, ([] : List TimesheetEntry))] ⟨2014, 1, 1⟩ =
      some [] from by with_unfolding_all rfl] at h
    exact Option.noConfusion h

/-- Witness for `delete_last_entry` at the concrete one-date, one-entry
collection. -/
theorem delete_last_entry_witness :
    ∃ c', delListItem
        { lines := [Line.date ⟨2014, 1, 1⟩ "01.01.2014", Line.text "",
            Line.entry (EntryLine.init 0 "foo" (.hours 1) "bar" (some "foo 1 bar"))],
          entries := [(⟨2014, 1, 1⟩,
            [{ line := some 0, ignored := false, commented := false,
               alias_ := "foo", description := "bar", duration := .hours 1 }])],
          synchronized := true, addDateToBottom := false, nextId := 1 }
        ⟨2014, 1, 1⟩ 0 = some c' ∧
      lookupDate c'.entries ⟨2014, 1, 1⟩ = some [] ∧
      ∀ l ∈ c'.lines, Line.isDateWith ⟨2014, 1, 1⟩ l = false :=
  delete_last_entry _ ⟨2014, 1, 1⟩
    { line := some 0, ignored := false, commented := false,
      alias_ := "foo", description := "bar", duration := .hours 1 }
    rfl (by with_unfolding_all rfl)

/-! ## C1: round trip -/

/-- Lookup across a dictionary append. -/
theorem lookupDate_append {α} (m1 m2 : List (Date × α)) (d : Date) :
    lookupDate (m1 ++ m2) d =
      match lookupDate m1 d with
      | some v => some v
      | none => lookupDate m2 d := by
  induction m1 with
  | nil => simp [lookupDate]
  | cons p m ih =>
    obtain ⟨k, w⟩ := p
    by_cases hk : k = d
    · simp [lookupDate, hk]
    · simp only [List.cons_append, lookupDate, if_neg hk]
      exact ih

/-- Updating one key leaves other keys' lookups unchanged. -/
theorem lookup_updateDate_ne {α} (m : List (Date × α)) (d d' : Date) (v : α)
    (h : ¬ d' = d) : lookupDate (updateDate m d v) d' = lookupDate m d' := by
  induction m with
  | nil => rfl
  | cons p m ih =>
    obtain ⟨k, w⟩ := p
    simp only [updateDate, List.map_cons]
    dsimp only
    by_cases hk : k = d
    · subst hk
      rw [if_pos rfl]
      simp only [lookupDate, if_neg (fun hh : k = d' => h hh.symm)]
      exact ih
    · rw [if_neg hk]
      simp only [lookupDate]
      by_cases hk' : k = d'
      · rw [if_pos hk', if_pos hk']
      · rw [if_neg hk', if_neg hk']
        exact ih

/-- Upserting a key makes its lookup return the new value. -/
theorem lookup_upsert_self {α} (m : List (Date × α)) (d : Date) (v : α) :
    lookupDate (upsertDate m d v) d = some v := by
  unfold upsertDate
  split
  · next h => exact lookup_updateDate m d v h
  · next h =>
    rw [lookupDate_append]
    rw [show lookupDate m d = none from by
      cases hl : lookupDate m d
      · rfl
      · rw [hl] at h; simp at h]
    simp [lookupDate]

/-- Upserting a key leaves other keys' lookups unchanged. -/
theorem lookup_upsert_ne {α} (m : List (Date × α)) (d d' : Date) (v : α)
    (h : ¬ d' = d) : lookupDate (upsertDate m d v) d' = lookupDate m d' := by
  unfold upsertDate
  split
  · exact lookup_updateDate_ne m d d' v h
  · rw [lookupDate_append]
    have hnd : ¬ d = d' := fun hh => h hh.symm
    have : lookupDate [(d, v)] d' = none := by
      simp [lookupDate, hnd]
    rw [this]
    split
    · next heq => rw [heq]
    · next heq => rw [heq]

/-- The common final step of an unsynchronized append: `add_entry` is
suppressed and only the mapping is extended with the (unchained) entry. -/
theorem collAppend_tail (c : EntriesCollection) (d : Date) (x : TimesheetEntry)
    (lst : List TimesheetEntry)
    (hsync : c.synchronized = false) (hlk : lookupDate c.entries d = some lst) :
    ∃ c', (match addEntryColl c d x with
        | some (c2, x2) => some { c2 with entries := updateDate c2.entries d (lst ++ [x2]) }
        | none => none) = some c' ∧ c'.lines = c.lines ∧ c'.synchronized = false ∧
      (∀ d', lastDur c' d' = if d' = d then some x.duration else lastDur c d') := by
  have haegate : addEntryColl c d x = some (c, x) := by
    unfold addEntryColl
    rw [hsync]
    rfl
  rw [haegate]
  dsimp only
  refine ⟨_, rfl, rfl, hsync, ?_⟩
  intro d'
  unfold lastDur
  dsimp only
  by_cases hd : d' = d
  · subst hd
    rw [lookup_updateDate _ _ _ (by rw [hlk]; rfl), if_pos rfl]
    simp
  · rw [lookup_updateDate_ne _ _ _ _ hd, if_neg hd]

/-- An append that does not fire range chaining (with the collection
unsynchronized, as during a bulk load) leaves the text lines untouched and
only extends the structured mapping. -/
theorem collAppend_no_chain (c : EntriesCollection) (d : Date) (x : TimesheetEntry)
    (hsync : c.synchronized = false)
    (hnc : chainTrigger (lastDur c d) x.duration = false) :
    ∃ c', collAppend c d x = some c' ∧ c'.lines = c.lines ∧
      c'.synchronized = false ∧
      (∀ d', lastDur c' d' =
        if d' = d then some x.duration else lastDur c d') := by
  unfold collAppend
  cases hlk : lookupDate c.entries d with
  | none =>
    -- __missing__ creates the empty list; add_date is gated off
    have haddgate : addDateColl { c with entries := c.entries ++ [(d, [])] } d =
        { c with entries := c.entries ++ [(d, [])] } := by
      unfold addDateColl
      rw [show ({ c with entries := c.entries ++ [(d, [])] } :
        EntriesCollection).synchronized = false from hsync]
      rfl
    dsimp only
    simp only [List.getLast?_nil]
    rw [haddgate]
    have htail := collAppend_tail { c with entries := c.entries ++ [(d, [])] } d x []
      hsync (by
        rw [show ({ c with entries := c.entries ++ [(d, [])] } :
          EntriesCollection).entries = c.entries ++ [(d, [])] from rfl]
        rw [lookupDate_append, hlk]
        simp [lookupDate])
    obtain ⟨c', hc', hlines, hsync', hld⟩ := htail
    refine ⟨c', ?_, hlines, hsync', ?_⟩
    · exact hc'
    · intro d'
      rw [hld d']
      by_cases hd : d' = d
      · subst hd
        rw [if_pos rfl, if_pos rfl]
      · rw [if_neg hd, if_neg hd]
        -- lastDur over the extended mapping agrees off the new key
        unfold lastDur
        rw [show ({ c with entries := c.entries ++ [(d, [])] } :
          EntriesCollection).entries = c.entries ++ [(d, [])] from rfl]
        rw [lookupDate_append]
        cases hl2 : lookupDate c.entries d' with
        | some l2 => rfl
        | none =>
          have hnd : ¬ d = d' := fun hh => hd hh.symm
          simp [lookupDate, hnd]
  | some lst =>
    dsimp only
    have htail := collAppend_tail c d x lst hsync hlk
    cases hgl : lst.getLast? with
    | none =>
      dsimp only
      exact htail
    | some prev =>
      dsimp only
      have hlast : lastDur c d = some prev.duration := by
        unfold lastDur
        rw [hlk]
        simp [hgl]
      rw [hlast] at hnc
      rcases hpdd : prev.duration with q | ⟨ps, pe2⟩
      · exact htail
      · rcases hxdd : x.duration with q2 | ⟨xs, xe2⟩
        · rw [hxdd] at htail
          exact htail
        · rcases xs with _ | t
          · exfalso
            rw [hpdd, hxdd] at hnc
            simp [chainTrigger] at hnc
          · rw [hxdd] at htail
            exact htail

/-- Destructuring a successful `Except.map`. -/
theorem exceptMap_ok {ε α β} {f : α → β} {x : Except ε α} {y : β}
    (h : x.map f = .ok y) : ∃ a, x = .ok a ∧ y = f a := by
  cases x with
  | ok a =>
    refine ⟨a, rfl, ?_⟩
    simpa [Except.map] using h.symm
  | error e => simp [Except.map] at h

/-- A replay whose lines never fire range chaining leaves the text lines of
an unsynchronized collection untouched. -/
theorem replayGo_lines (ls : List Line) :
    ∀ (c : EntriesCollection) (cur : Option Date) (m : List (Date × Duration)),
      c.synchronized = false → (∀ d, lastDur c d = lookupDate m d) →
      ncGo m cur ls = true → (replayGo c cur ls).lines = c.lines := by
  induction ls with
  | nil => intro c cur m _ _ _; rfl
  | cons l rest ih =>
    intro c cur m hsync hsim hnc
    cases l with
    | date d t =>
      exact ih c (some d) m hsync hsim (by simpa [ncGo] using hnc)
    | text s =>
      exact ih c cur m hsync hsim (by simpa [ncGo] using hnc)
    | entry e =>
      cases cur with
      | none =>
        exact ih c none m hsync hsim (by simpa [ncGo] using hnc)
      | some d =>
        have hct : chainTrigger (lookupDate m d) e.duration = false := by
          by_cases h : chainTrigger (lookupDate m d) e.duration = true
          · exfalso
            simp only [ncGo, h, if_true] at hnc
            exact Bool.noConfusion hnc
          · simpa using h
        have hnc' : ncGo (upsertDate m d e.duration) (some d) rest = true := by
          simpa [ncGo, hct] using hnc
        have hchain : chainTrigger (lastDur c d)
            ({ mkTimesheetEntry e.aliasProp e.duration e.description with
                line := some e.id } : TimesheetEntry).duration = false := by
          rw [hsim d]
          exact hct
        obtain ⟨c', hca, hlines, hsync', hld⟩ :=
          collAppend_no_chain c d _ hsync hchain
        have hstep : replayGo c (some d) (Line.entry e :: rest) =
            replayGo c' (some d) rest := by
          simp only [replayGo]
          rw [hca]
        rw [hstep]
        rw [ih c' (some d) (upsertDate m d e.duration) hsync' ?_ hnc', hlines]
        intro d'
        rw [hld d']
        by_cases hd : d' = d
        · subst hd
          rw [if_pos rfl, lookup_upsert_self]
          rfl
        · rw [if_neg hd, lookup_upsert_ne _ _ _ _ hd]
          exact hsim d'

/-- A successfully parsed entry line caches the original line text. -/
theorem parseEntryLine_text {id : Nat} {line : String} {e : EntryLine}
    (h : parseEntryLine id line = .ok e) : e._text = some line := by
  unfold parseEntryLine at h
  split at h
  · obtain ⟨dur, _, rfl⟩ := exceptMap_ok h
    rfl
  · exact Except.noConfusion h

/-- Serializing the parser's output reproduces the stripped input lines:
every parsed line carries its original (stripped) text. -/
theorem parserGo_serialize (currentYear : Nat) :
    ∀ (ls : List String) (cur : Option Date) (idx : Nat) (out : List Line),
      parserGo currentYear cur idx ls = .ok out →
      out.map serializeLine = ls.map stripStr := by
  intro ls
  induction ls with
  | nil =>
    intro cur idx out h
    unfold parserGo at h
    cases h
    rfl
  | cons l rest ih =>
    intro cur idx out h
    unfold parserGo at h
    dsimp only at h
    split at h
    · obtain ⟨out', hrec, rfl⟩ := exceptMap_ok h
      simp only [List.map_cons, serializeLine]
      rw [ih cur (idx + 1) out' hrec]
    · split at h
      · next dd heq =>
        obtain ⟨out', hrec, rfl⟩ := exceptMap_ok h
        simp only [List.map_cons, serializeLine]
        rw [ih (some dd) (idx + 1) out' hrec]
      · split at h
        · exact Except.noConfusion h
        · next cd =>
          split at h
          · next e heq =>
            obtain ⟨out', hrec, rfl⟩ := exceptMap_ok h
            simp only [List.map_cons, serializeLine, parseEntryLine_text heq]
            rw [ih (some cd) (idx + 1) out' hrec]
          · exact Except.noConfusion h

/-- C1.  Round trip: for every well-formed document text with no
unmodified-line ambiguity (only `\n` terminators, already-stripped lines, no
trailing newline, parseable, and no range-chaining rewrite during the load),
bulk-loading the text succeeds and serializing the resulting Document —
joining the lines' texts with newlines — yields exactly the original text,
whitespace, comments and blank-line runs preserved. -/
theorem bulk_load_round_trip (currentYear : Nat) (s : String)
    (hwf : wellFormedB currentYear s = true) :
    (initBody currentYear (some s)).2 = none ∧
      serializeColl (initBody currentYear (some s)).1 = s := by
  unfold wellFormedB at hwf
  simp only [Bool.and_eq_true, decide_eq_true_eq] at hwf
  obtain ⟨⟨⟨hterm, hstrip⟩, hjoin⟩, hparse⟩ := hwf
  by_cases hemp : s.data.isEmpty
  · obtain ⟨ld⟩ := s
    simp only [List.isEmpty_iff] at hemp
    subst hemp
    exact ⟨rfl, rfl⟩
  · unfold initBody
    dsimp only
    rw [if_neg hemp]
    cases hp : parseDoc currentYear s with
    | error e =>
      rw [hp] at hparse
      exact absurd hparse (by simp)
    | ok out =>
      have hnc : noChainB out = true := by
        rw [hp] at hparse
        exact hparse
      unfold initFromStr
      rw [hp]
      dsimp only
      have hlines := replayGo_lines out
        { loadingCollection with lines := out, nextId := out.length } none []
        rfl (fun d => rfl) hnc
      refine ⟨rfl, ?_⟩
      unfold serializeColl
      dsimp only
      rw [hlines]
      dsimp only
      rw [parserGo_serialize currentYear (pySplitlines s) none 0 out hp]
      have hmap : (pySplitlines s).map stripStr = pySplitlines s := by
        have : ∀ x ∈ pySplitlines s, stripStr x = x := by
          intro x hx
          have := List.all_eq_true.1 hstrip x hx
          simpa using this
        calc (pySplitlines s).map stripStr = (pySplitlines s).map id :=
              List.map_congr_left this
        _ = pySplitlines s := List.map_id _
      rw [hmap, hjoin]

/-- Witness for `bulk_load_round_trip`: a document with a comment, blank-line
runs, time-range and decimal durations and two date sections round-trips
exactly. -/
theorem bulk_load_round_trip_witness :
    wellFormedB 2014 "01.01.2014\n\nalias_1 09:00-10:15 my description\nfoo 1.75 bar baz\n\n# a comment\n\n02.01.2014\n\nfoo 3 worked on stuff" = true ∧
      serializeColl (initBody 2014
        (some "01.01.2014\n\nalias_1 09:00-10:15 my description\nfoo 1.75 bar baz\n\n# a comment\n\n02.01.2014\n\nfoo 3 worked on stuff")).1 =
        "01.01.2014\n\nalias_1 09:00-10:15 my description\nfoo 1.75 bar baz\n\n# a comment\n\n02.01.2014\n\nfoo 3 worked on stuff" :=
  ⟨by with_unfolding_all rfl,
    (bulk_load_round_trip 2014
      "01.01.2014\n\nalias_1 09:00-10:15 my description\nfoo 1.75 bar baz\n\n# a comment\n\n02.01.2014\n\nfoo 3 worked on stuff"
      (by with_unfolding_all rfl)).2⟩

end Taxi
